import Mathlib

set_option maxRecDepth 100000

/-!
Verification of the namespace-isolation node daemons (quota controller and
container routing plugin) against their natural-language specification.

The definitions below are a shallow embedding of the Go sources:
`pkg/agent/cgroup.go` (slice manager, ParseCPU, ParseMemory,
formatMemoryForSystemd), `pkg/agent/controller.go` (work loop, reconcile,
handleQuota, handleDelete), `pkg/agent/k8s.go` (EmitEvent),
`pkg/plugin/cache.go` (QuotaCache) and the plugin's CreateContainer handler.

Machine integers (Go int64) are modelled as ℤ/ℕ (no claim exercises 64-bit
overflow); Go float64 arithmetic is modelled exactly as round-to-nearest-even
binary64 over rational pairs (see `flPair`), without the overflow/underflow
range behaviour of `strconv.ParseFloat` (finite decimals of magnitude outside
roughly 2^±8192 are outside the model); fallible Go functions return
`Option`/`Except`; filesystem and subprocess effects are passed explicitly as
oracle state (`SysWorld`).
-/

/-! ### Go string primitives -/

/-- ASCII whitespace recognised by Go's `strings.TrimSpace` (the Unicode
whitespace beyond ASCII is not modelled; no claim exercises it). -/
def goIsSpace (c : Char) : Bool :=
  c = ' ' ∨ c = '\t' ∨ c = '\n' ∨ c = (Char.ofNat 11) ∨ c = (Char.ofNat 12) ∨ c = '\r'

/-- Model of `strings.TrimSpace`: drop leading and trailing whitespace. -/
def goTrim (s : String) : String :=
  String.mk (((s.toList.dropWhile goIsSpace).reverse.dropWhile goIsSpace).reverse)

/-- Model of `strings.TrimSuffix(s, ".slice")`. -/
def goTrimSuffixSlice (s : String) : String :=
  let r := s.toList.reverse
  if r.take 6 = ['e', 'c', 'i', 'l', 's', '.'] then String.mk ((r.drop 6).reverse) else s

/-- Numeric value of a list of decimal digit characters (most significant first). -/
def natOfDigits (l : List Char) : ℕ :=
  l.foldl (fun n c => 10 * n + (c.toNat - 48)) 0

/-! ### Decimal parsing (model of the decimal part of `strconv.ParseFloat`)

`strconv.ParseFloat` accepts an optional sign, a decimal mantissa with at
least one digit (digits may sit on either side of a single dot), and an
optional decimal exponent.  The special forms `inf`/`nan`, hexadecimal
floats and digit-separating underscores are not modelled (no claim
exercises them).  The parsed value is kept exactly, as a sign and a
fraction `n / d` with `d` a power of ten. -/

/-- Exact value of a parsed decimal: `(if neg then -1 else 1) * n / d`. -/
structure DecVal where
  neg : Bool
  n : ℕ
  d : ℕ
  deriving DecidableEq, Repr

/-- Consume an optional leading sign; `true` means negative. -/
def parseSign : List Char → Bool × List Char
  | '+' :: t => (false, t)
  | '-' :: t => (true, t)
  | l => (false, l)

/-- Parse `digits [. digits]` with at least one digit in total.
Returns the mantissa digits as a number, the count of fractional digits,
and the unconsumed rest. -/
def parseMantissa (l : List Char) : Option (ℕ × ℕ × List Char) :=
  let p := l.span Char.isDigit
  match p.2 with
  | '.' :: r2 =>
    let pf := r2.span Char.isDigit
    if p.1.isEmpty ∧ pf.1.isEmpty then none
    else some (natOfDigits p.1 * 10 ^ pf.1.length + natOfDigits pf.1, pf.1.length, pf.2)
  | _ => if p.1.isEmpty then none else some (natOfDigits p.1, 0, p.2)

/-- Parse the tail of an exponent (after `e`/`E`): optional sign then digits,
consuming the whole rest.  Returns (negative?, exponent). -/
def parseExpTail (l : List Char) : Option (Bool × ℕ) :=
  let p := parseSign l
  let pd := p.2.span Char.isDigit
  if pd.1.isEmpty then none
  else if pd.2.isEmpty then some (p.1, natOfDigits pd.1)
  else none

/-- Model of the decimal part of `strconv.ParseFloat` (exact value). -/
def parseGoFloat (s : String) : Option DecVal :=
  let p := parseSign s.toList
  match parseMantissa p.2 with
  | none => none
  | some (m, k, rest) =>
    match rest with
    | [] => some ⟨p.1, m, 10 ^ k⟩
    | c :: t =>
      if c = 'e' ∨ c = 'E' then
        match parseExpTail t with
        | none => none
        | some (eneg, e) =>
          if eneg then some ⟨p.1, m, 10 ^ (k + e)⟩ else some ⟨p.1, m * 10 ^ e, 10 ^ k⟩
      else none

/-! ### Binary64 rounding

`flPair n d` is the magnitude of the Go float64 nearest to `n / d`, as a
pair (numerator, power-of-two denominator).  Normalisation scales the
fraction into `[2^52, 2^53)` and rounds half to even — exactly IEEE-754
round-to-nearest for binary64, except that the exponent is not clamped to
the double range (no overflow to infinity, no subnormal flush; the fuel
bound `flFuel` covers every magnitude within 2^±8192).  Validated against
hardware binary64 on the inputs the claims exercise. -/

/-- Round `n / d` half to even, to a natural number. -/
def rne (n d : ℕ) : ℕ :=
  let q := n / d
  let r := n % d
  if 2 * r < d then q
  else if d < 2 * r then q + 1
  else if q % 2 = 0 then q else q + 1

/-- Scale `n / d` by powers of two into `[2^52, 2^53)`; returns the scaled
pair and the binary exponent taken out. Structural recursion on fuel. -/
def norm53 : ℕ → ℕ → ℕ → ℕ × ℕ × ℤ
  | 0, n, d => (n, d, 0)
  | fuel + 1, n, d =>
    if n < 2 ^ 52 * d then
      let r := norm53 fuel (2 * n) d
      (r.1, r.2.1, r.2.2 - 1)
    else if 2 ^ 53 * d ≤ n then
      let r := norm53 fuel n (2 * d)
      (r.1, r.2.1, r.2.2 + 1)
    else (n, d, 0)

def flFuel : ℕ := 8192

/-- Magnitude of the binary64 value nearest to `n / d`, as a pair
(numerator, power-of-two denominator). -/
def flPair (n d : ℕ) : ℕ × ℕ :=
  if n = 0 then (0, 1)
  else if 0 ≤ (norm53 flFuel n d).2.2 then
    (rne (norm53 flFuel n d).1 (norm53 flFuel n d).2.1 * 2 ^ (norm53 flFuel n d).2.2.toNat, 1)
  else (rne (norm53 flFuel n d).1 (norm53 flFuel n d).2.1, 2 ^ (-(norm53 flFuel n d).2.2).toNat)

/-- Float64 multiplication of the nonnegative double `p` by the exactly
representable natural `k` (one rounding, as in Go `x * float64(k)`). -/
def flMul (p : ℕ × ℕ) (k : ℕ) : ℕ × ℕ := flPair (p.1 * k) p.2

/-- Truncation toward zero of the nonnegative pair value (Go `int64(x)` for
nonnegative `x`). -/
def truncPair (p : ℕ × ℕ) : ℕ := p.1 / p.2

/-- Rational value of a nonnegative pair. -/
def pairRat (p : ℕ × ℕ) : ℚ := (p.1 : ℚ) / (p.2 : ℚ)

/-- Rational value of the float64 nearest to a parsed decimal. -/
def flRat (v : DecVal) : ℚ :=
  (if v.neg then -1 else 1) * pairRat (flPair v.n v.d)

/-! ### `ParseCPU` and `ParseMemory` (`pkg/agent/cgroup.go`) -/

def DefaultCPUPeriod : ℕ := 100000

/-- Model of `ParseCPU`: trim; reject empty; `strconv.ParseFloat`; reject
`cores <= 0` (on the parsed float64: negative sign or zero magnitude);
return `int64(cores * float64(DefaultCPUPeriod))`. -/
def ParseCPU (cpu : String) : Option ℤ :=
  let t := goTrim cpu
  if t = "" then none
  else
    match parseGoFloat t with
    | none => none
    | some v =>
      let cores := flPair v.n v.d
      if v.neg = true ∨ cores.1 = 0 then none
      else some ((truncPair (flMul cores DefaultCPUPeriod) : ℕ) : ℤ)

/-- Characters matched by `\s` in Go's RE2 regexps. -/
def goRegexSpace (c : Char) : Bool :=
  c = ' ' ∨ c = '\t' ∨ c = '\n' ∨ c = (Char.ofNat 12) ∨ c = '\r'

/-- Suffix alternation of the `ParseMemory` regexp —
`(Ki|Mi|Gi|Ti|K|M|G|T|k|m|g|t)?` after `\s*` — returning the byte
multiplier (the `strings.ToUpper` switch of the source collapsed in). -/
def memSuffixTail (l : List Char) : Option ℕ :=
  match l.dropWhile goRegexSpace with
  | [] => some 1
  | ['K', 'i'] => some 1024
  | ['M', 'i'] => some (1024 ^ 2)
  | ['G', 'i'] => some (1024 ^ 3)
  | ['T', 'i'] => some (1024 ^ 4)
  | ['K'] => some 1024
  | ['M'] => some (1024 ^ 2)
  | ['G'] => some (1024 ^ 3)
  | ['T'] => some (1024 ^ 4)
  | ['k'] => some 1024
  | ['m'] => some (1024 ^ 2)
  | ['g'] => some (1024 ^ 3)
  | ['t'] => some (1024 ^ 4)
  | _ => none

/-- Model of the anchored source regexp
`^(\d+(?:\.\d+)?)\s*(Ki|Mi|Gi|Ti|K|M|G|T|k|m|g|t)?$`: returns the numeric
group as an exact fraction `n / d` plus the suffix multiplier. -/
def memMatch (l : List Char) : Option (ℕ × ℕ × ℕ) :=
  let p := l.span Char.isDigit
  if p.1.isEmpty then none
  else
    match p.2 with
    | '.' :: r2 =>
      let pf := r2.span Char.isDigit
      if pf.1.isEmpty then none
      else
        (memSuffixTail pf.2).map fun mult =>
          (natOfDigits p.1 * 10 ^ pf.1.length + natOfDigits pf.1, 10 ^ pf.1.length, mult)
    | r1 => (memSuffixTail r1).map fun mult => (natOfDigits p.1, 1, mult)

/-- Model of `ParseMemory`: trim; reject empty; match the regexp;
`strconv.ParseFloat` the numeric group (the `value < 0` check of the source
can never fire — the group is all digits); return
`int64(value * multiplier)` in float64 arithmetic. -/
def ParseMemory (memory : String) : Option ℤ :=
  let t := goTrim memory
  if t = "" then none
  else
    match memMatch t.toList with
    | none => none
    | some (n, d, mult) => some ((truncPair (flMul (flPair n d) mult) : ℕ) : ℤ)

/-! ### systemd property construction (`pkg/agent/cgroup.go`) -/

/-- Model of `formatMemoryForSystemd`: largest whole binary suffix in
{G, M, K}, else decimal bytes.  Go's `%`/`/` on int64 truncate toward
zero, hence `Int.tmod`/`Int.tdiv`. -/
def formatMemoryForSystemd (bytes : ℤ) : String :=
  if 1073741824 ≤ bytes ∧ Int.tmod bytes 1073741824 = 0 then
    toString (Int.tdiv bytes 1073741824) ++ "G"
  else if 1048576 ≤ bytes ∧ Int.tmod bytes 1048576 = 0 then
    toString (Int.tdiv bytes 1048576) ++ "M"
  else if 1024 ≤ bytes ∧ Int.tmod bytes 1024 = 0 then
    toString (Int.tdiv bytes 1024) ++ "K"
  else toString bytes

/-- The `CPUQuota=<pct>%` property passed to `systemctl set-property` by
`setCPULimitViaSystemd`: `cpuPercent := (cpuQuota * 100) / DefaultCPUPeriod`
in Go int64 arithmetic. -/
def cpuQuotaProperty (cpuQuota : ℤ) : String :=
  "CPUQuota=" ++ toString (Int.tdiv (cpuQuota * 100) (DefaultCPUPeriod : ℤ)) ++ "%"

/-- The `MemoryMax=<value>` property passed by `setMemoryLimitViaSystemd`. -/
def memoryMaxProperty (memoryBytes : ℤ) : String :=
  "MemoryMax=" ++ formatMemoryForSystemd memoryBytes

/-! ### The NamespaceQuota object and the plugin quota cache (`pkg/plugin/cache.go`)

An unstructured NamespaceQuota object as the two daemons read it: the
cluster-scoped object name, whether a `spec` map is present, and the
optional `spec.namespace`, `spec.cpu`, `spec.memory`, `spec.enabled`
fields (a field read of the wrong type behaves as absent, as with
`unstructured.Nested*`). -/

structure QuotaObj where
  name : String
  kind : String
  specPresent : Bool
  namespaceField : Option String
  cpuField : Option String
  memoryField : Option String
  enabledField : Option Bool
  deriving DecidableEq, Repr

/-- Model of `QuotaCache.extractNamespace`: empty string when `spec` or
`spec.namespace` is missing. -/
def extractNamespace (u : QuotaObj) : String :=
  if u.specPresent then u.namespaceField.getD "" else ""

/-- Model of `QuotaCache.isEnabled`: `true` when `spec` or `spec.enabled`
is missing. -/
def isEnabled (u : QuotaObj) : Bool :=
  if u.specPresent then u.enabledField.getD true else true

/-- The plugin cache as its membership predicate.  The Go map stores only
`true` values, and `HasQuota` reads `quotas[ns]` with the zero-value
default `false`, so the characteristic function is the faithful view;
deleting a key is setting its membership to `false`. -/
def emptyCache : String → Bool := fun _ => false

def cacheSet (c : String → Bool) (ns : String) (b : Bool) : String → Bool :=
  fun k => if k = ns then b else c k

/-- Model of `QuotaCache.HasQuota`. -/
def HasQuota (c : String → Bool) (ns : String) : Bool := c ns

/-- Model of `QuotaCache.onAdd`: skip when the namespace is empty or the
declaration is disabled (the source guard `ns == "" || !qc.isEnabled(u)`
written as its short-circuit nesting), else insert. -/
def onAdd (c : String → Bool) (u : QuotaObj) : String → Bool :=
  if extractNamespace u = "" then c
  else if isEnabled u then cacheSet c (extractNamespace u) true else c

/-- Model of `QuotaCache.onUpdate` (the old object is ignored): skip when
the namespace is empty, else insert when enabled and delete when not. -/
def onUpdate (c : String → Bool) (_old u : QuotaObj) : String → Bool :=
  if extractNamespace u = "" then c
  else if isEnabled u then cacheSet c (extractNamespace u) true
  else cacheSet c (extractNamespace u) false

/-- Model of `QuotaCache.onDelete` after tombstone unwrapping: skip when
the namespace is empty, else delete. -/
def onDelete (c : String → Bool) (u : QuotaObj) : String → Bool :=
  if extractNamespace u = "" then c else cacheSet c (extractNamespace u) false

/-- An informer event as delivered to the cache handlers.  A delete may
arrive as a `DeletedFinalStateUnknown` tombstone; `onDelete` unwraps it to
the same object, so the flag carries no behavioural weight. -/
inductive QEvent where
  | add (u : QuotaObj)
  | update (old u : QuotaObj)
  | delete (u : QuotaObj) (tombstone : Bool)
  deriving DecidableEq, Repr

def applyEvent (c : String → Bool) : QEvent → (String → Bool)
  | .add u => onAdd c u
  | .update old u => onUpdate c old u
  | .delete u _ => onDelete c u

/-- The cache after a sequence of informer events, starting empty. -/
def runEvents (evs : List QEvent) : String → Bool :=
  evs.foldl applyEvent emptyCache

/-- The object an event carries (for a tombstoned delete, the unwrapped one). -/
def evObj : QEvent → QuotaObj
  | .add u => u
  | .update _ u => u
  | .delete u _ => u

/-- The namespace an event targets (empty when it targets none). -/
def evNs (e : QEvent) : String := extractNamespace (evObj e)

/-- Modelled from the claim's words: the most recent event in the sequence
targeting `ns`. -/
def lastTargeting (evs : List QEvent) (ns : String) : Option QEvent :=
  evs.foldl (fun acc e => if evNs e = ns then some e else acc) none

/-- Modelled from the claim's words: `ns` is cached exactly when the most
recent event targeting it is an add or update of an enabled declaration
with a non-empty `spec.namespace`. -/
def specHasQuota (evs : List QEvent) (ns : String) : Bool :=
  if ns = "" then false
  else
    match lastTargeting evs ns with
    | some (.delete _ _) => false
    | some e => isEnabled (evObj e)
    | none => false

/-! Well-formedness of an informer event stream: an add for a namespace
occurs only as its first event or right after a delete for it (a second
add without an intervening delete cannot be delivered by an informer —
re-listing surfaces as updates). -/

/-- Per-namespace most-recent-event tracker. -/
def lastUpd (acc : String → Option QEvent) (e : QEvent) : String → Option QEvent :=
  if evNs e = "" then acc
  else fun k => if k = evNs e then some e else acc k

def addOkPrev : Option QEvent → Bool
  | none => true
  | some (.delete _ _) => true
  | some _ => false

/-- Head condition of well-formedness: an add is admissible only when the
tracker has no event, or a delete, for its namespace. -/
def wfHead (acc : String → Option QEvent) : QEvent → Bool
  | .add u => decide (extractNamespace u = "") || addOkPrev (acc (extractNamespace u))
  | _ => true

def wfFrom (acc : String → Option QEvent) : List QEvent → Bool
  | [] => true
  | e :: t => wfHead acc e && wfFrom (lastUpd acc e) t

/-- A well-formed informer event stream. -/
def wfEvents (evs : List QEvent) : Bool := wfFrom (fun _ => none) evs

/-- What the cache must hold for a namespace given its most recent event. -/
def predictedOf : Option QEvent → Bool
  | some (.delete _ _) => false
  | some e => isEnabled (evObj e)
  | none => false

/-! ### The routing plugin's CreateContainer handler (plugin package)

`CreateContainer` consults the cache and either returns an adjustment
carrying only the Linux cgroups path, or no adjustment; the error
component of the NRI reply is always nil.  The slice prefix `brasa` is
written literally in the source (the plugin takes no slice-prefix
configuration). -/

def CreateContainer (cache : String → Bool) (podNamespace containerId : String) :
    Option String × Option String :=
  if HasQuota cache podNamespace then
    (some ("brasa-" ++ podNamespace ++ ".slice" ++ ":cri-containerd:" ++ containerId), none)
  else (none, none)

/-! ### The controller's slice manager (`pkg/agent/cgroup.go`)

Filesystem and subprocess effects are explicit: `fs` is existence of paths
on the cgroup filesystem, and each fallible host-side step carries a
success oracle (`os.MkdirAll` of the parent, the parent
`cgroup.subtree_control` write, `os.MkdirAll` of the child, the child
controller enable — which the source only warns about — `os.Remove`, and
the two `systemctl set-property` invocations). -/

structure CgroupManager where
  cgroupRoot : String
  slicePfx : String
  deriving DecidableEq, Repr

/-- Model of `getSliceName`: `strings.TrimSuffix(prefix, ".slice") ++ "-" ++ ns ++ ".slice"`. -/
def getSliceName (m : CgroupManager) (ns : String) : String :=
  goTrimSuffixSlice m.slicePfx ++ "-" ++ ns ++ ".slice"

/-- Model of `GetSlicePath` (`filepath.Join` modelled as `/`-joining of
clean relative components). -/
def GetSlicePath (m : CgroupManager) (ns : String) : String :=
  m.cgroupRoot ++ "/" ++ m.slicePfx ++ "/" ++ getSliceName m ns

def GetParentSlicePath (m : CgroupManager) : String :=
  m.cgroupRoot ++ "/" ++ m.slicePfx

structure SysWorld where
  fs : String → Bool
  removeOk : Bool
  parentMkdirOk : Bool
  parentEnableOk : Bool
  mkdirOk : Bool
  childEnableOk : Bool
  cpuCmdOk : Bool
  memCmdOk : Bool

/-- Model of `CgroupManager.RemoveSlice`: stat the slice path — absent is
success with nothing to do; otherwise `os.Remove`, whose failure is the
only error.  Returns the error and the filesystem afterwards. -/
def RemoveSlice (m : CgroupManager) (w : SysWorld) (ns : String) :
    Option String × (String → Bool) :=
  let p := GetSlicePath m ns
  if w.fs p = false then (none, w.fs)
  else if w.removeOk then (none, fun q => if q = p then false else w.fs q)
  else (some ("failed to remove slice for " ++ ns), w.fs)

/-- Model of `CgroupManager.EnsureSlice`: ensure the parent slice (mkdir +
enable controllers, both fatal), mkdir the child slice (fatal), enable
controllers in the child (warn only), then — for each non-empty limit —
parse it and invoke `systemctl set-property` (both fatal).  On success
returns the property strings issued, in order. -/
def EnsureSlice (m : CgroupManager) (w : SysWorld) (ns cpuLimit memoryLimit : String) :
    Except String (List String) :=
  if w.parentMkdirOk = false then .error ("failed to create parent slice " ++ GetParentSlicePath m)
  else if w.parentEnableOk = false then
    .error ("failed to enable controllers in " ++ GetParentSlicePath m)
  else if w.mkdirOk = false then .error ("failed to create slice directory for " ++ ns)
  else
    match
      (if cpuLimit = "" then Except.ok []
       else
         match ParseCPU cpuLimit with
         | none => Except.error ("failed to parse CPU limit for " ++ ns)
         | some q =>
           if w.cpuCmdOk then Except.ok [cpuQuotaProperty q]
           else Except.error ("failed to set CPU limit for " ++ ns) : Except String (List String))
    with
    | .error e => .error e
    | .ok cpuProps =>
      match
        (if memoryLimit = "" then Except.ok []
         else
           match ParseMemory memoryLimit with
           | none => Except.error ("failed to parse memory limit for " ++ ns)
           | some b =>
             if w.memCmdOk then Except.ok [memoryMaxProperty b]
             else Except.error ("failed to set memory limit for " ++ ns) : Except String (List String))
      with
      | .error e => .error e
      | .ok memProps => .ok (cpuProps ++ memProps)

/-- The cgroup filesystem after `EnsureSlice` ran (parent created when its
mkdir succeeded; child created when every step up to its mkdir succeeded). -/
def ensureSliceFs (m : CgroupManager) (w : SysWorld) (ns : String) : String → Bool :=
  fun q =>
    if q = GetParentSlicePath m ∧ w.parentMkdirOk then true
    else if q = GetSlicePath m ns ∧ w.parentMkdirOk ∧ w.parentEnableOk ∧ w.mkdirOk then true
    else w.fs q

/-! ### The controller's reconcile paths (`pkg/agent/controller.go`, `pkg/agent/k8s.go`) -/

/-- Model of `ParseNamespaceQuota` (agent package): `spec` must be present
and `spec.namespace` non-empty; `cpu`/`memory` default to empty strings and
`enabled` to true. -/
structure NamespaceQuotaSpec where
  namespaceField : String
  CPU : String
  Memory : String
  Enabled : Bool
  deriving DecidableEq, Repr

def ParseNamespaceQuota (u : QuotaObj) : Except String NamespaceQuotaSpec :=
  if u.specPresent = false then .error "spec not found in NamespaceQuota"
  else if u.namespaceField.getD "" = "" then .error "namespace field is required"
  else .ok ⟨u.namespaceField.getD "", u.cpuField.getD "", u.memoryField.getD "", u.enabledField.getD true⟩

/-- An event emitted through the recorder: the object reference it is
attached to (kind, name — `EmitEvent` builds a `Namespace` reference named
by its argument; `EmitEventForObject` references the object itself), the
event type, the reason, and the message. -/
structure EmittedEvent where
  refKind : String
  refName : String
  etype : String
  reason : String
  message : String
  deriving DecidableEq, Repr

/-- Everything one reconcile invocation does besides returning: the status
write it issues (ready, message), the events it emits, the resulting
cgroup filesystem, and the returned error. -/
structure ReconcileEffects where
  status : Option (Bool × String)
  events : List EmittedEvent
  fsAfter : String → Bool
  result : Option String

/-- Model of `Controller.handleDelete`: remove the slice named by the key;
a failure is only warned about, and the `CgroupRemoved` event — attached to
a `Namespace` reference named by the key, as `EmitEvent` builds it — is
emitted only when `RemoveSlice` returned nil.  Always returns nil. -/
def handleDelete (m : CgroupManager) (w : SysWorld) (name : String) : ReconcileEffects :=
  let r := RemoveSlice m w name
  { status := none
    events :=
      if r.1 = none then
        [⟨"Namespace", name, "Normal", "CgroupRemoved",
          "Cgroup removed for deleted NamespaceQuota " ++ name⟩]
      else []
    fsAfter := r.2
    result := none }

/-- Model of `Controller.handleQuota`.  Disabled: remove the slice
best-effort (failure only warned), status `ready=true "Quota disabled"`,
Normal `QuotaDisabled` event, return nil.  Enabled: `EnsureSlice`; on error
status `ready=false "Cgroup error: …"`, Warning `CgroupFailed`, return the
error; on success status `ready=true "Cgroup configured successfully"`,
Normal `CgroupConfigured`, return nil. -/
def handleQuota (m : CgroupManager) (w : SysWorld) (u : QuotaObj)
    (spec : NamespaceQuotaSpec) : ReconcileEffects :=
  if spec.Enabled = false then
    let r := RemoveSlice m w spec.namespaceField
    { status := some (true, "Quota disabled")
      events := [⟨u.kind, u.name, "Normal", "QuotaDisabled", "Quota disabled, cgroup removed"⟩]
      fsAfter := r.2
      result := none }
  else
    match EnsureSlice m w spec.namespaceField spec.CPU spec.Memory with
    | .error e =>
      { status := some (false, "Cgroup error: " ++ e)
        events := [⟨u.kind, u.name, "Warning", "CgroupFailed", "Failed to configure cgroup: " ++ e⟩]
        fsAfter := ensureSliceFs m w spec.namespaceField
        result := some e }
    | .ok _ =>
      { status := some (true, "Cgroup configured successfully")
        events := [⟨u.kind, u.name, "Normal", "CgroupConfigured",
          "Cgroup configured with CPU=" ++ spec.CPU ++ ", Memory=" ++ spec.Memory⟩]
        fsAfter := ensureSliceFs m w spec.namespaceField
        result := none }

/-- Model of `Controller.reconcile`: a key absent from the informer store
is a delete; a present object is parsed (parse failure: status
`ready=false "Parse error: …"`, Warning `CgroupFailed`, return the error)
and handed to `handleQuota`. -/
def reconcile (m : CgroupManager) (w : SysWorld) (store : String → Option QuotaObj)
    (key : String) : ReconcileEffects :=
  match store key with
  | none => handleDelete m w key
  | some u =>
    match ParseNamespaceQuota u with
    | .error e =>
      { status := some (false, "Parse error: " ++ e)
        events := [⟨u.kind, u.name, "Warning", "CgroupFailed",
          "Failed to parse NamespaceQuota: " ++ e⟩]
        fsAfter := w.fs
        result := some e }
    | .ok spec => handleQuota m w u spec

/-! ### The work loop (`pkg/agent/controller.go`)

`processNextItem` after a successful `Get`: run `reconcile`; on success
`Forget`; on failure re-add with rate limiting while `NumRequeues < maxRetries`,
else `Forget` (drop) with an error log; always return `true` (only a queue
shutdown returns `false`).  The client-go rate limiter is modelled by its
contract: `NumRequeues` counts `AddRateLimited` calls since the last
`Forget`, which resets the count. -/

def maxRetries : ℕ := 5

/-- One `processNextItem` pass on a dequeued key, given whether `reconcile`
failed and the key's current `NumRequeues` count.  Returns (the count
afterwards, whether the key was re-enqueued, the boolean `processNextItem`
returns). -/
def processNextItem (reconcileFails : Bool) (numRequeues : ℕ) : ℕ × Bool × Bool :=
  if reconcileFails = false then (0, false, true)
  else if numRequeues < maxRetries then (numRequeues + 1, true, true)
  else (0, false, true)

/-- The `NumRequeues` count after `k` consecutive failing passes on a key
first seen with count 0. -/
def failStreakCount : ℕ → ℕ
  | 0 => 0
  | k + 1 => (processNextItem true (failStreakCount k)).1

/-! ### Derived definitions used by the theorem statements -/

/-- The quota `ParseCPU` computes for a parsed positive decimal: the
float64 product `cores * 100000` truncated toward zero. -/
def goCPUQuota (v : DecVal) : ℤ :=
  (truncPair (flMul (flPair v.n v.d) DefaultCPUPeriod) : ℤ)

/-- Modelled from the claim's words (C7), for comparison with the source's
acceptance: suffix alternation of `^(\d+(\.\d+)?)(Ki|Mi|Gi|Ti|K|M|G|T)?$`
matched case-insensitively (input already lowercased). -/
def specMemSuffixOk : List Char → Bool
  | [] => true
  | ['k', 'i'] => true
  | ['m', 'i'] => true
  | ['g', 'i'] => true
  | ['t', 'i'] => true
  | ['k'] => true
  | ['m'] => true
  | ['g'] => true
  | ['t'] => true
  | _ => false

/-- Modelled from the claim's words (C7): after trimming, the input
matches `^(\d+(\.\d+)?)(Ki|Mi|Gi|Ti|K|M|G|T)?$` case-insensitively
(no whitespace between number and suffix). -/
def specMemoryRegexAccepts (s : String) : Bool :=
  let l := (goTrim s).toList.map Char.toLower
  let p := l.span Char.isDigit
  if p.1.isEmpty then false
  else
    match p.2 with
    | '.' :: r2 =>
      let pf := r2.span Char.isDigit
      if pf.1.isEmpty then false else specMemSuffixOk pf.2
    | r1 => specMemSuffixOk r1

/-! ### Concrete fixtures for witnesses and counterexamples -/

def mBrasa : CgroupManager := ⟨"/sys/fs/cgroup", "brasa.slice"⟩

def fsWithSlice : String → Bool :=
  fun p => p == "/sys/fs/cgroup/brasa.slice/brasa-tenant-a.slice"

def wAllOk : SysWorld := ⟨fun _ => false, true, true, true, true, true, true, true⟩

def wRemoveFails : SysWorld := ⟨fsWithSlice, false, true, true, true, true, true, true⟩

def wSlicePresent : SysWorld := ⟨fsWithSlice, true, true, true, true, true, true, true⟩

def uTenantA : QuotaObj := ⟨"quota-a", "NamespaceQuota", true, some "a", none, none, none⟩

def uTenantAOff : QuotaObj := ⟨"quota-a", "NamespaceQuota", true, some "a", none, none, some false⟩

def specDisabled : NamespaceQuotaSpec := ⟨"tenant-a", "4", "8Gi", false⟩

def evsWellFormed : List QEvent :=
  [.add uTenantA, .update uTenantA uTenantAOff, .delete uTenantAOff true, .add uTenantA]

def evsDoubleAdd : List QEvent := [.add uTenantA, .add uTenantAOff]

/-! ## Theorems -/

/-! ### Helper lemmas -/

theorem string_append_assoc (a b c : String) : a ++ b ++ c = a ++ (b ++ c) :=
  String.append_assoc a b c

/-- C1: for every CreateContainer call, the NRI error is nil, and the
adjustment carries the cgroups path
`brasa-<ns>.slice:cri-containerd:<container-id>` exactly when the pod's
namespace is in the quota cache (the plugin hardcodes the default parent
slice prefix `brasa`; it takes no slice-prefix configuration), and no
adjustment otherwise. -/
theorem createContainer_routes_by_cache :
    ∀ (cache : String → Bool) (ns cid : String),
      (CreateContainer cache ns cid).2 = none ∧
      (CreateContainer cache ns cid).1 =
        (if HasQuota cache ns then
          some ("brasa-" ++ ns ++ ".slice:cri-containerd:" ++ cid)
        else none) := by
  intro cache ns cid
  by_cases h : HasQuota cache ns
  · refine ⟨by simp [CreateContainer, h], ?_⟩
    simp only [CreateContainer, h, if_true]
    rw [string_append_assoc ("brasa-" ++ ns) ".slice" ":cri-containerd:"]
    rfl
  · simp [CreateContainer, h]

/-- C3: processNextItem always returns true; a failing key is re-added
with rate limiting exactly while its requeue count is below
maxRetries = 5, and at count 5 it is forgotten (dropped); starting from a
fresh key, consecutive failures requeue it exactly 5 times and the sixth
pass drops it. -/
theorem processNextItem_retry_budget :
    (∀ (f : Bool) (n : ℕ), (processNextItem f n).2.2 = true) ∧
    (∀ n : ℕ, n < maxRetries → processNextItem true n = (n + 1, true, true)) ∧
    (∀ n : ℕ, maxRetries ≤ n → processNextItem true n = (0, false, true)) ∧
    (∀ k : ℕ, k ≤ maxRetries → failStreakCount k = k) ∧
    (∀ k : ℕ, k < maxRetries → (processNextItem true (failStreakCount k)).2.1 = true) ∧
    (processNextItem true (failStreakCount maxRetries)).2.1 = false := by
  have hzero : ∀ k : ℕ, k ≤ maxRetries → failStreakCount k = k := by
    intro k hk
    have hk5 : k ≤ 5 := hk
    interval_cases k <;> decide
  refine ⟨?_, ?_, ?_, hzero, ?_, ?_⟩
  · intro f n
    cases f
    · rfl
    · by_cases hn : n < maxRetries
      · simp [processNextItem, hn]
      · simp [processNextItem, hn]
  · intro n hn
    simp [processNextItem, hn]
  · intro n hn
    simp [processNextItem, Nat.not_lt.mpr hn]
  · intro k hk
    rw [hzero k (Nat.le_of_lt hk)]
    simp [processNextItem, hk]
  · rw [hzero maxRetries (Nat.le_refl _)]
    decide

theorem processNextItem_retry_budget_witness :
    processNextItem true 4 = (5, true, true) ∧
    processNextItem true 5 = (0, false, true) ∧
    failStreakCount 5 = 5 :=
  ⟨processNextItem_retry_budget.2.1 4 (by decide),
   processNextItem_retry_budget.2.2.1 5 (by decide),
   processNextItem_retry_budget.2.2.2.1 5 (by decide)⟩

/-- C4: for every parsed declaration with enabled=false, handleQuota
removes the slice best-effort, sets status ready=true "Quota disabled",
emits a Normal QuotaDisabled event, and returns nil — also when the slice
removal fails. -/
theorem handleQuota_disabled_never_errors :
    ∀ (m : CgroupManager) (w : SysWorld) (u : QuotaObj) (spec : NamespaceQuotaSpec),
      spec.Enabled = false →
      (handleQuota m w u spec).result = none ∧
      (handleQuota m w u spec).status = some (true, "Quota disabled") ∧
      (handleQuota m w u spec).events =
        [⟨u.kind, u.name, "Normal", "QuotaDisabled", "Quota disabled, cgroup removed"⟩] ∧
      (handleQuota m w u spec).fsAfter = (RemoveSlice m w spec.namespaceField).2 := by
  intro m w u spec h
  refine ⟨?_, ?_, ?_, ?_⟩ <;> simp [handleQuota, h]

theorem handleQuota_disabled_never_errors_witness :
    (RemoveSlice mBrasa wRemoveFails "tenant-a").1 ≠ none ∧
    (handleQuota mBrasa wRemoveFails uTenantA specDisabled).result = none ∧
    (handleQuota mBrasa wRemoveFails uTenantA specDisabled).status = some (true, "Quota disabled") :=
  ⟨by decide,
   (handleQuota_disabled_never_errors mBrasa wRemoveFails uTenantA specDisabled rfl).1,
   (handleQuota_disabled_never_errors mBrasa wRemoveFails uTenantA specDisabled rfl).2.1⟩

/-- C8: formatMemoryForSystemd renders a byte count with the largest
suffix in {G, M, K} whose unit divides it exactly and is at most the
count, else as decimal bytes; 8 GiB renders as "8G" and 1536 MiB as
"1536M", not "1.5G". -/
theorem formatMemory_largest_whole_suffix :
    (∀ b : ℤ,
      (1073741824 ≤ b ∧ Int.tmod b 1073741824 = 0 →
        formatMemoryForSystemd b = toString (Int.tdiv b 1073741824) ++ "G") ∧
      (¬(1073741824 ≤ b ∧ Int.tmod b 1073741824 = 0) →
        1048576 ≤ b ∧ Int.tmod b 1048576 = 0 →
        formatMemoryForSystemd b = toString (Int.tdiv b 1048576) ++ "M") ∧
      (¬(1073741824 ≤ b ∧ Int.tmod b 1073741824 = 0) →
        ¬(1048576 ≤ b ∧ Int.tmod b 1048576 = 0) →
        1024 ≤ b ∧ Int.tmod b 1024 = 0 →
        formatMemoryForSystemd b = toString (Int.tdiv b 1024) ++ "K") ∧
      (¬(1073741824 ≤ b ∧ Int.tmod b 1073741824 = 0) →
        ¬(1048576 ≤ b ∧ Int.tmod b 1048576 = 0) →
        ¬(1024 ≤ b ∧ Int.tmod b 1024 = 0) →
        formatMemoryForSystemd b = toString b)) ∧
    formatMemoryForSystemd 8589934592 = "8G" ∧
    formatMemoryForSystemd 1610612736 = "1536M" := by
  refine ⟨fun b => ⟨?_, ?_, ?_, ?_⟩, by decide, by decide⟩
  · intro h1
    simp [formatMemoryForSystemd, h1]
  · intro h1 h2
    simp [formatMemoryForSystemd, h1, h2]
  · intro h1 h2 h3
    simp [formatMemoryForSystemd, h1, h2, h3]
  · intro h1 h2 h3
    simp [formatMemoryForSystemd, h1, h2, h3]

theorem formatMemory_largest_whole_suffix_witness :
    formatMemoryForSystemd 8589934592 = toString (Int.tdiv (8589934592 : ℤ) 1073741824) ++ "G" ∧
    formatMemoryForSystemd 1000 = toString (1000 : ℤ) :=
  ⟨(formatMemory_largest_whole_suffix.1 8589934592).1 ⟨by decide, by decide⟩,
   (formatMemory_largest_whole_suffix.1 1000).2.2.2 (by decide) (by decide) (by decide)⟩

/-- C9: RemoveSlice is idempotent: removing a slice whose directory does
not exist succeeds and leaves the filesystem unchanged, and after any
successful removal a second removal of the same slice also succeeds. -/
theorem removeSlice_idempotent :
    ∀ (m : CgroupManager) (w : SysWorld) (ns : String),
      (w.fs (GetSlicePath m ns) = false → RemoveSlice m w ns = (none, w.fs)) ∧
      ((RemoveSlice m w ns).1 = none →
        ∀ ok2 : Bool,
          (RemoveSlice m
            ⟨(RemoveSlice m w ns).2, ok2, w.parentMkdirOk, w.parentEnableOk, w.mkdirOk,
              w.childEnableOk, w.cpuCmdOk, w.memCmdOk⟩ ns).1 = none) := by
  intro m w ns
  constructor
  · intro h
    simp [RemoveSlice, h]
  · intro h ok2
    by_cases hfs : w.fs (GetSlicePath m ns) = false
    · simp [RemoveSlice, hfs] at *
    · cases hrm : w.removeOk
      · exfalso
        simp [RemoveSlice, hfs, hrm] at h
      · simp [RemoveSlice, hfs, hrm]

theorem removeSlice_idempotent_witness :
    RemoveSlice mBrasa wAllOk "tenant-a" = (none, wAllOk.fs) ∧
    (RemoveSlice mBrasa
      ⟨(RemoveSlice mBrasa wSlicePresent "tenant-a").2, true, true, true, true, true, true, true⟩
      "tenant-a").1 = none :=
  ⟨(removeSlice_idempotent mBrasa wAllOk "tenant-a").1 (by decide),
   (removeSlice_idempotent mBrasa wSlicePresent "tenant-a").2 (by decide) true⟩

/-- C10: reconcile of a key absent from the informer cache always returns
nil — also when removing the slice fails for a reason other than
non-existence — and emits the Normal CgroupRemoved event, attached to a
Namespace reference named by the key, exactly when RemoveSlice succeeded. -/
theorem reconcile_deleted_key :
    ∀ (m : CgroupManager) (w : SysWorld) (store : String → Option QuotaObj) (key : String),
      store key = none →
      (reconcile m w store key).result = none ∧
      (reconcile m w store key).events =
        (if (RemoveSlice m w key).1 = none then
          [⟨"Namespace", key, "Normal", "CgroupRemoved",
            "Cgroup removed for deleted NamespaceQuota " ++ key⟩]
        else []) ∧
      (reconcile m w store key).fsAfter = (RemoveSlice m w key).2 := by
  intro m w store key h
  refine ⟨?_, ?_, ?_⟩ <;> simp [reconcile, h, handleDelete]

theorem reconcile_deleted_key_witness :
    (RemoveSlice mBrasa wRemoveFails "tenant-a").1 ≠ none ∧
    (reconcile mBrasa wRemoveFails (fun _ => none) "tenant-a").result = none ∧
    (reconcile mBrasa wRemoveFails (fun _ => none) "tenant-a").events = [] := by
  refine ⟨by decide, (reconcile_deleted_key mBrasa wRemoveFails (fun _ => none) "tenant-a" rfl).1, ?_⟩
  rw [(reconcile_deleted_key mBrasa wRemoveFails (fun _ => none) "tenant-a" rfl).2.1]
  decide

theorem addOkPrev_predicted {o : Option QEvent} (h : addOkPrev o = true) :
    predictedOf o = false := by
  match o with
  | none => rfl
  | some (.add u) => exact absurd h (by simp [addOkPrev])
  | some (.update o u) => exact absurd h (by simp [addOkPrev])
  | some (.delete u t) => rfl

theorem applyEvent_step (c : String → Bool) (acc : String → Option QEvent) (e : QEvent)
    (hinv : ∀ ns, c ns = if ns = "" then false else predictedOf (acc ns))
    (hok : wfHead acc e = true) :
    ∀ ns, applyEvent c e ns = if ns = "" then false else predictedOf (lastUpd acc e ns) := by
  intro ns
  match e with
  | .add u =>
    by_cases hm : extractNamespace u = ""
    · simp [applyEvent, onAdd, lastUpd, evNs, evObj, hm, hinv ns]
    · cases hb : isEnabled u
      · have hprev : addOkPrev (acc (extractNamespace u)) = true := by
          simpa [wfHead, hm] using hok
        by_cases hns : ns = extractNamespace u
        · subst hns
          have hc : c (extractNamespace u) = false := by
            rw [hinv (extractNamespace u), if_neg hm, addOkPrev_predicted hprev]
          simp [applyEvent, onAdd, lastUpd, evNs, evObj, hm, hb, hc, predictedOf]
        · simp [applyEvent, onAdd, lastUpd, evNs, evObj, hm, hb, hns, hinv ns]
      · by_cases hns : ns = extractNamespace u
        · subst hns
          simp [applyEvent, onAdd, lastUpd, evNs, evObj, hm, hb, cacheSet, predictedOf]
        · simp [applyEvent, onAdd, lastUpd, evNs, evObj, hm, hb, hns, cacheSet, hinv ns]
  | .update o u =>
    by_cases hm : extractNamespace u = ""
    · simp [applyEvent, onUpdate, lastUpd, evNs, evObj, hm, hinv ns]
    · cases hb : isEnabled u
      · by_cases hns : ns = extractNamespace u
        · subst hns
          simp [applyEvent, onUpdate, lastUpd, evNs, evObj, hm, hb, cacheSet, predictedOf]
        · simp [applyEvent, onUpdate, lastUpd, evNs, evObj, hm, hb, hns, cacheSet, hinv ns]
      · by_cases hns : ns = extractNamespace u
        · subst hns
          simp [applyEvent, onUpdate, lastUpd, evNs, evObj, hm, hb, cacheSet, predictedOf]
        · simp [applyEvent, onUpdate, lastUpd, evNs, evObj, hm, hb, hns, cacheSet, hinv ns]
  | .delete u tb =>
    by_cases hm : extractNamespace u = ""
    · simp [applyEvent, onDelete, lastUpd, evNs, evObj, hm, hinv ns]
    · by_cases hns : ns = extractNamespace u
      · subst hns
        simp [applyEvent, onDelete, lastUpd, evNs, evObj, hm, cacheSet, predictedOf]
      · simp [applyEvent, onDelete, lastUpd, evNs, evObj, hm, hns, cacheSet, hinv ns]

theorem runFrom_tracks (t : List QEvent) :
    ∀ (c : String → Bool) (acc : String → Option QEvent),
      (∀ ns, c ns = if ns = "" then false else predictedOf (acc ns)) →
      wfFrom acc t = true →
      ∀ ns, (t.foldl applyEvent c) ns
        = if ns = "" then false else predictedOf ((t.foldl lastUpd acc) ns) := by
  induction t with
  | nil =>
    intro c acc hinv _ ns
    simpa using hinv ns
  | cons e t ih =>
    intro c acc hinv hwf ns
    rw [wfFrom, Bool.and_eq_true] at hwf
    simp only [List.foldl_cons]
    exact ih (applyEvent c e) (lastUpd acc e) (applyEvent_step c acc e hinv hwf.1) hwf.2 ns

theorem foldl_lastUpd_eq (ns : String) (hns : ns ≠ "") (t : List QEvent) :
    ∀ acc : String → Option QEvent,
      (t.foldl lastUpd acc) ns
        = t.foldl (fun a e => if evNs e = ns then some e else a) (acc ns) := by
  induction t with
  | nil => intro acc; rfl
  | cons e t ih =>
    intro acc
    simp only [List.foldl_cons]
    rw [ih]
    congr 1
    unfold lastUpd
    by_cases h : evNs e = ""
    · rw [if_pos h, if_neg (fun he => hns (he.symm.trans h))]
    · rw [if_neg h]
      by_cases he : evNs e = ns
      · rw [if_pos he.symm, if_pos he]
      · rw [if_neg (fun hh => he hh.symm), if_neg he]

/-- C2 (amended): after any well-formed sequence of informer events —
each namespace targeted by at most one declaration, and an add for a
namespace delivered only as its first event or right after a delete for
it — HasQuota(ns) is true exactly when the most recent event targeting ns
is an add or update of a declaration with non-empty spec.namespace whose
enabled field is true or absent. -/
theorem quotaCache_tracks_enabled (evs : List QEvent) (hwf : wfEvents evs = true) :
    ∀ ns, HasQuota (runEvents evs) ns = specHasQuota evs ns := by
  intro ns
  unfold HasQuota runEvents specHasQuota
  have hbase : ∀ k : String, emptyCache k
      = if k = "" then false else predictedOf ((fun _ => none) k) := by
    intro k
    by_cases h : k = "" <;> simp [emptyCache, h, predictedOf]
  rw [runFrom_tracks evs emptyCache (fun _ => none) hbase hwf ns]
  by_cases hns : ns = ""
  · simp [hns]
  · rw [if_neg hns, if_neg hns, foldl_lastUpd_eq ns hns evs (fun _ => none)]
    have hlt : lastTargeting evs ns
        = evs.foldl (fun a e => if evNs e = ns then some e else a) none := rfl
    rw [← hlt]
    match h : lastTargeting evs ns with
    | none => rfl
    | some (.add u) => rfl
    | some (.update o u) => rfl
    | some (.delete u t) => rfl

theorem quotaCache_tracks_enabled_witness :
    wfEvents evsWellFormed = true ∧
    HasQuota (runEvents evsWellFormed) "a" = specHasQuota evsWellFormed "a" :=
  ⟨by decide, quotaCache_tracks_enabled evsWellFormed (by decide) "a"⟩

/-- C2 (counterexample to the claim as stated): in the event sequence
[add enabled, add disabled] — both events of the one declaration targeting
"a", hence within the claim's side condition — the most recent event
targeting "a" is an add with enabled=false, so the claim predicts
HasQuota("a") = false; the cache answers true, because onAdd ignores
disabled objects instead of deleting.  The sequence is not a well-formed
informer stream (wfEvents is false), which is exactly the amendment. -/
theorem quotaCache_claim_counterexample :
    HasQuota (runEvents evsDoubleAdd) "a" = true ∧
    specHasQuota evsDoubleAdd "a" = false ∧
    wfEvents evsDoubleAdd = false := by
  refine ⟨by decide, by decide, by decide⟩

theorem flPair_snd_pos (n d : ℕ) : 0 < (flPair n d).2 := by
  unfold flPair
  split
  · simp
  · split
    · simp
    · exact pow_pos (by decide) _

theorem flRat_nonpos_iff (v : DecVal) :
    flRat v ≤ 0 ↔ (v.neg = true ∨ (flPair v.n v.d).1 = 0) := by
  have hd : (0 : ℚ) < ((flPair v.n v.d).2 : ℚ) := by
    exact_mod_cast flPair_snd_pos v.n v.d
  unfold flRat pairRat
  cases hv : v.neg
  · simp only [hv, Bool.false_eq_true, if_false, one_mul, false_or]
    constructor
    · intro h
      have hnum : ((flPair v.n v.d).1 : ℚ) ≤ 0 := by
        by_contra hpos
        push_neg at hpos
        have := div_pos hpos hd
        linarith
      have hz : ((flPair v.n v.d).1 : ℚ) = 0 := le_antisymm hnum (by positivity)
      exact_mod_cast hz
    · intro h
      rw [h]
      simp
  · simp only [hv, if_true, true_or, iff_true]
    have hnn : (0 : ℚ) ≤ ((flPair v.n v.d).1 : ℚ) / ((flPair v.n v.d).2 : ℚ) :=
      div_nonneg (by positivity) (le_of_lt hd)
    linarith

/-- C5: ParseCPU("4") = 400000 and ParseCPU("0.5") = 50000 (fractional
cores accepted); empty and "-1" are errors; and in general ParseCPU errs
exactly when the trimmed input is empty, not a decimal number, or its
parsed (float64) value is ≤ 0. -/
theorem parseCPU_valid_iff :
    ParseCPU "4" = some 400000 ∧ ParseCPU "0.5" = some 50000 ∧
    ParseCPU "" = none ∧ ParseCPU "-1" = none ∧
    ∀ s : String, ParseCPU s = none ↔
      (goTrim s = "" ∨ parseGoFloat (goTrim s) = none ∨
        ∃ v, parseGoFloat (goTrim s) = some v ∧ flRat v ≤ 0) := by
  refine ⟨by decide, by decide, by decide, by decide, ?_⟩
  intro s
  by_cases ht : goTrim s = ""
  · simp [ParseCPU, ht]
  · match hp : parseGoFloat (goTrim s) with
    | none => simp [ParseCPU, ht, hp]
    | some v =>
      simp only [ParseCPU, ht, hp, if_false]
      constructor
      · intro h
        by_cases hc : v.neg = true ∨ (flPair v.n v.d).1 = 0
        · exact Or.inr (Or.inr ⟨v, rfl, (flRat_nonpos_iff v).mpr hc⟩)
        · simp [hc] at h
      · intro h
        rcases h with h | h | ⟨v2, hv2, hle⟩
        · exact h.elim
        · exact absurd h (by simp)
        · have hvv : v = v2 := Option.some.inj hv2
          subst hvv
          simp [(flRat_nonpos_iff v).mp hle]

theorem truncPair_floor (p : ℕ × ℕ) : ((truncPair p : ℕ) : ℤ) = ⌊pairRat p⌋ := by
  unfold truncPair pairRat
  have h1 : (0 : ℚ) ≤ (p.1 : ℚ) / (p.2 : ℚ) := div_nonneg (by positivity) (by positivity)
  calc ((p.1 / p.2 : ℕ) : ℤ) = ((⌊(p.1 : ℚ) / (p.2 : ℚ)⌋₊ : ℕ) : ℤ) := by
        rw [Nat.floor_div_nat, Nat.floor_natCast]
    _ = ⌊(p.1 : ℚ) / (p.2 : ℚ)⌋ := by
        rw [← Int.floor_toNat, Int.toNat_of_nonneg (Int.floor_nonneg.mpr h1)]

/-- C6 (amended): for every CPU string parsing to a positive float64
cores value, the computed quota is the float64 product cores × 100000
truncated toward zero (the mathematical floor of that product — not
round(c × 100000)), and the systemd property argument is
CPUQuota=<pct>% with pct = quota × 100 / 100000 in (Go, truncating)
integer arithmetic. -/
theorem cpu_quota_truncated_float (s : String) (v : DecVal)
    (hp : parseGoFloat (goTrim s) = some v) (hneg : v.neg = false)
    (hnz : (flPair v.n v.d).1 ≠ 0) :
    ParseCPU s = some (goCPUQuota v) ∧
    goCPUQuota v = ⌊pairRat (flMul (flPair v.n v.d) DefaultCPUPeriod)⌋ ∧
    cpuQuotaProperty (goCPUQuota v)
      = "CPUQuota=" ++ toString (Int.tdiv (goCPUQuota v * 100) 100000) ++ "%" := by
  have ht : goTrim s ≠ "" := by
    intro h
    rw [h] at hp
    have hcon : (none : Option DecVal) = some v :=
      (by decide : parseGoFloat "" = none).symm.trans hp
    exact Option.noConfusion hcon
  refine ⟨?_, ?_, rfl⟩
  · simp [ParseCPU, ht, hp, hneg, hnz, goCPUQuota]
  · exact truncPair_floor (flMul (flPair v.n v.d) DefaultCPUPeriod)

theorem cpu_quota_truncated_float_witness :
    parseGoFloat (goTrim "4") = some ⟨false, 4, 1⟩ ∧
    ParseCPU "4" = some (goCPUQuota ⟨false, 4, 1⟩) ∧
    cpuQuotaProperty (goCPUQuota ⟨false, 4, 1⟩)
      = "CPUQuota=" ++ toString (Int.tdiv (goCPUQuota ⟨false, 4, 1⟩ * 100) 100000) ++ "%" :=
  ⟨by decide,
   (cpu_quota_truncated_float "4" ⟨false, 4, 1⟩ (by decide) rfl (by decide)).1,
   (cpu_quota_truncated_float "4" ⟨false, 4, 1⟩ (by decide) rfl (by decide)).2.2⟩

/-- C6 (counterexample to the claim as stated): "0.500005" parses to the
exact decimal 500005/1000000; the code computes quota 50000 (float64
product 50000.5 truncated), while round(c × 100000) = 50001. -/
theorem cpu_quota_round_counterexample :
    parseGoFloat (goTrim "0.500005") = some ⟨false, 500005, 1000000⟩ ∧
    ParseCPU "0.500005" = some 50000 ∧
    round ((500005 : ℚ) / 1000000 * 100000) = 50001 ∧
    (50000 : ℤ) ≠ 50001 := by
  refine ⟨by decide, by decide, ?_, by decide⟩
  calc round ((500005 : ℚ) / 1000000 * 100000)
      = ⌊(500005 : ℚ) / 1000000 * 100000 + 1 / 2⌋ := round_eq _
    _ = ⌊((50001 : ℤ) : ℚ)⌋ := by norm_num
    _ = 50001 := Int.floor_intCast _

/-- C7 (counterexample to the claim as stated): the source regexp is not
case-insensitive — "8gi" matches the claim's case-insensitive regexp but
ParseMemory rejects it — and it allows whitespace between number and
suffix (`\s*`), which the claim's regexp does not: "8 Gi" is accepted by
the code. -/
theorem parseMemory_regex_counterexample :
    specMemoryRegexAccepts "8gi" = true ∧ ParseMemory "8gi" = none ∧
    specMemoryRegexAccepts "8 Gi" = false ∧ ParseMemory "8 Gi" = some 8589934592 := by
  refine ⟨by decide, by decide, by decide, by decide⟩

/-- C7 (amended): ParseMemory accepts, after trimming, exactly the
strings matching `^(\d+(\.\d+)?)\s*(Ki|Mi|Gi|Ti|K|M|G|T|k|m|g|t)?$`
(two-letter suffixes only in the mixed case `Xi`, one-letter suffixes in
either case, optional whitespace before the suffix); no suffix means
bytes and every suffix is binary; the claimed values hold:
8Gi = 8·1024³, 512Mi = 512·1024², 1024 = 1024, 1.5G = ⌊1.5·1024³⌋, and
"-1" and "8Xi" are errors. -/
theorem parseMemory_binary_suffixes :
    ParseMemory "8Gi" = some 8589934592 ∧
    ParseMemory "512Mi" = some 536870912 ∧
    ParseMemory "1024" = some 1024 ∧
    ParseMemory "1.5G" = some 1610612736 ∧
    ParseMemory "-1" = none ∧
    ParseMemory "8Xi" = none ∧
    ∀ s : String, (ParseMemory s).isSome = (memMatch (goTrim s).toList).isSome := by
  refine ⟨by decide, by decide, by decide, by decide, by decide, by decide, ?_⟩
  intro s
  by_cases ht : goTrim s = ""
  · have h0 : memMatch ([] : List Char) = none := rfl
    have h1 : memMatch (goTrim s).data = none := by rw [ht]; rfl
    have h2 : memMatch (goTrim s).toList = none := h1
    simp [ParseMemory, ht, h0, h1, h2]
  · match hm : memMatch (goTrim s).toList with
    | none =>
      have hm2 : memMatch (goTrim s).data = none := hm
      simp [ParseMemory, ht, hm, hm2]
    | some x =>
      have hm2 : memMatch (goTrim s).data = some x := hm
      simp [ParseMemory, ht, hm, hm2]

/-- Cross-validation of the binary64 model on inputs where float64
truncation differs from exact rational truncation: Go computes
`int64(0.29 * 100000.0) = 28999` (the double nearest 0.29 lies below it),
while exact arithmetic would give 29000. -/
theorem flModel_matches_go_arithmetic :
    ParseCPU "0.29" = some 28999 ∧
    ParseCPU " 2 " = some 200000 ∧
    ParseCPU "0.7" = some 70000 ∧
    ParseMemory "3.14159M" = some 3294195 := by
  refine ⟨by decide, by decide, by decide, by decide⟩
